import Mathlib

/-!
# Phonolite audio output engine (`macos/Runner/phonolite_audio.c`)

A shallow embedding of the AudioQueue based PCM output engine and of the
CoreAudio device catalogue, followed by theorems about the buffer accounting
(`in_flight`, `completed_samples`), the error paths of `phonolite_audio_write`
and `phonolite_audio_open`, and the device enumeration.

Conventions of the embedding.

* A pointer is a natural number (its address), `0` being `NULL`.  The engine
  handle `PhonoliteAudioPlayer *` is an `Option PhonoliteAudioPlayer`: `none`
  is the null handle, `some p` a handle whose pointee currently holds `p`.
* Operating-system calls are not interpreted.  Each exported function takes
  the answers of the OS calls it makes as an argument and returns, next to its
  C result, the list of OS calls it performed, in program order.
* `OSStatus` is a signed 32-bit integer, `noErr` is `0`.
* Every exported function and the completion callback are one atomic step of a
  trace.  The two counters are C11 atomics, touched only by
  `atomic_fetch_add`, `atomic_fetch_sub`, `atomic_exchange` and `atomic_load`,
  which wrap silently: `in_flight` (`atomic_int`) is reduced into
  `[-2^31, 2^31)` and `completed_samples` (`atomic_llong`) into
  `[-2^63, 2^63)` after every addition and subtraction.
* Conversions between integer types are reduced modulo `2^32` or `2^64`
  explicitly.
* The product `sampleCount * (int32_t)sizeof(int16_t)` of
  `phonolite_audio_write` is a signed `int32_t` multiplication.  For
  `sampleCount ≥ 2^30` it overflows, which C leaves undefined; the embedding
  computes the byte size only when the product is in range and otherwise takes
  the value seen by each of its three uses from the answers, so nothing is
  assumed about it; the rest of the call proceeds as written.  The product
  `channels * 2` of `phonolite_audio_open` and the `int` sum of the channel
  counts in `phonolite_device_has_output` are treated in the same way.
* The `int32_t` counters `outputCount` and `current` of the two enumeration
  loops are written with the reduction to `int32_t`; the device array has fewer
  than `2^30` entries (`get_all_devices_bounds`), so their increments never
  overflow.
* The null checks of `phonolite_get_all_devices` on its two out parameters are
  left out: both callers pass the addresses of locals.
-/

namespace Phonolite

/-! ## Machine integers -/

/-- Conversion to `int32_t` (two's complement reduction into `[-2^31, 2^31)`). -/
def toInt32 (x : Int) : Int := (x + 2147483648) % 4294967296 - 2147483648

/-- Conversion to `UInt32` / `uint32_t` (reduction into `[0, 2^32)`). -/
def toUInt32 (x : Int) : Int := x % 4294967296

/-- Conversion to `intptr_t`, 64 bits wide on macOS. -/
def toIntPtr (x : Int) : Int :=
  (x + 9223372036854775808) % 18446744073709551616 - 9223372036854775808

/-- Conversion to `long long` / `int64_t` (reduction into `[-2^63, 2^63)`). -/
def toInt64 (x : Int) : Int :=
  (x + 9223372036854775808) % 18446744073709551616 - 9223372036854775808

/-- Largest `int32_t`. -/
def INT32_MAX : Int := 2147483647

/-- The status `noErr` of `MacTypes.h`. -/
def noErr : Int := 0

/-- The value of `(UInt32)(x * 2)` for an `int32_t` `x` as one use of it sees it.
The product is a signed `int32_t` multiplication: when it is an `int32_t` the
value is the product converted to `UInt32`; when it overflows C leaves it
undefined and the value is `onOverflow`, taken from the answers. -/
def doubledAsUInt32 (x : Int) (onOverflow : Int) : Int :=
  if -2147483648 ≤ x * 2 ∧ x * 2 ≤ 2147483647 then toUInt32 (x * 2) else onOverflow

/-! ## Data model -/

/-- The fields of an `AudioQueueBuffer` the engine writes, with the address of
the buffer (`AudioQueueBufferRef`). -/
structure AudioQueueBuffer where
  ref : Nat
  mAudioDataByteSize : Int
  mUserData : Int
deriving DecidableEq, Repr

/-- The stream description filled in by `phonolite_audio_open`. -/
structure AudioStreamBasicDescription where
  mSampleRate : Int
  mBytesPerPacket : Int
  mFramesPerPacket : Int
  mBytesPerFrame : Int
  mChannelsPerFrame : Int
  mBitsPerChannel : Int
deriving DecidableEq, Repr

/-- Calls into the C library, AudioToolbox and CoreAudio made by the engine. -/
inductive OSCall where
  | calloc
  | free
  | AudioQueueNewOutput (asbd : AudioStreamBasicDescription)
  | AudioQueueSetProperty (queue : Nat) (device : Int)
  | AudioQueueStart (queue : Nat)
  | AudioQueueDispose (queue : Nat)
  | AudioQueueAllocateBuffer (queue : Nat) (byteSize : Int)
  | memcpy (buffer : Nat) (src : Nat) (n : Int)
  | AudioQueueEnqueueBuffer (queue : Nat) (buffer : AudioQueueBuffer)
  | AudioQueueFreeBuffer (queue : Nat) (buffer : Nat)
deriving DecidableEq, Repr

/-- The record `struct PhonoliteAudioPlayer`. -/
structure PhonoliteAudioPlayer where
  queue : Nat
  in_flight : Int
  completed_samples : Int
  sample_rate : Int
  channels : Int
deriving DecidableEq, Repr

/-! ## Completion callback -/

/-- The callback `phonolite_audio_output_callback`: the player after the callback (`none`
when `inUserData` is `NULL`) and the OS calls made. -/
def phonolite_audio_output_callback (inUserData : Option PhonoliteAudioPlayer)
    (inAQ : Nat) (inBuffer : AudioQueueBuffer) :
    Option PhonoliteAudioPlayer × List OSCall :=
  match inUserData with
  | none => (none, [OSCall.AudioQueueFreeBuffer inAQ inBuffer.ref])
  | some player =>
    let sampleCount := toInt32 inBuffer.mUserData
    let player :=
      if sampleCount > 0 then
        { player with completed_samples := toInt64 (player.completed_samples + sampleCount) }
      else player
    let player := { player with in_flight := toInt32 (player.in_flight - 1) }
    (some player, [OSCall.AudioQueueFreeBuffer inAQ inBuffer.ref])

/-! ## Writing a buffer -/

/-- Answers to one `phonolite_audio_write`.  From the OS: the status of
`AudioQueueAllocateBuffer` and the buffer address it stored (`0` when it left
`buffer` at `NULL`), and the status of `AudioQueueEnqueueBuffer`.  From the
compiled code, read only when the `int32_t` product of line 114 overflows: the
size passed to `AudioQueueAllocateBuffer`, the size passed to `memcpy` and the
size stored in `mAudioDataByteSize`. -/
structure WriteAnswers where
  allocStatus : Int
  allocBuffer : Nat
  enqueueStatus : Int
  overflowAllocSize : Int
  overflowCopySize : Int
  overflowStoredSize : Int
deriving DecidableEq, Repr

/-- Outcome of `phonolite_audio_write`: the returned code, the player behind
the handle afterwards, the OS calls made, and the buffer the queue accepted
(`none` when nothing was enqueued). -/
structure WriteResult where
  ret : Int
  player : Option PhonoliteAudioPlayer
  calls : List OSCall
  enqueued : Option AudioQueueBuffer
deriving DecidableEq, Repr

/-- The byte size of line 114, `(UInt32)(sampleCount * (int32_t)sizeof(int16_t))`,
as one of its uses sees it: the product converted to `UInt32` when the product
is an `int32_t`, and `onOverflow` when the signed multiplication overflows. -/
def byteSize (sampleCount : Int) (onOverflow : Int) : Int :=
  doubledAsUInt32 sampleCount onOverflow

/-- The function `phonolite_audio_write`.  `samples` is the address of the caller's array. -/
def phonolite_audio_write (player : Option PhonoliteAudioPlayer) (samples : Nat)
    (sampleCount : Int) (os : WriteAnswers) : WriteResult :=
  match player with
  | none => { ret := -1, player := none, calls := [], enqueued := none }
  | some p =>
    if samples = 0 ∨ sampleCount ≤ 0 then
      { ret := -1, player := some p, calls := [], enqueued := none }
    else if p.queue = 0 then
      { ret := -2, player := some p, calls := [], enqueued := none }
    else
      let allocCall :=
        OSCall.AudioQueueAllocateBuffer p.queue (byteSize sampleCount os.overflowAllocSize)
      if os.allocStatus ≠ noErr ∨ os.allocBuffer = 0 then
        { ret := os.allocStatus, player := some p, calls := [allocCall], enqueued := none }
      else
        let buffer : AudioQueueBuffer :=
          { ref := os.allocBuffer
            mAudioDataByteSize := byteSize sampleCount os.overflowStoredSize
            mUserData := toIntPtr sampleCount }
        let copyCall :=
          OSCall.memcpy buffer.ref samples (byteSize sampleCount os.overflowCopySize)
        let p1 := { p with in_flight := toInt32 (p.in_flight + 1) }
        let enqueueCall := OSCall.AudioQueueEnqueueBuffer p.queue buffer
        if os.enqueueStatus ≠ noErr then
          let p2 := { p1 with in_flight := toInt32 (p1.in_flight - 1) }
          { ret := os.enqueueStatus
            player := some p2
            calls := [allocCall, copyCall, enqueueCall,
                      OSCall.AudioQueueFreeBuffer p.queue buffer.ref]
            enqueued := none }
        else
          { ret := 0
            player := some p1
            calls := [allocCall, copyCall, enqueueCall]
            enqueued := some buffer }

/-! ## Draining and idleness -/

/-- The function `phonolite_audio_collect_done_samples`: the returned count and the player
behind the handle afterwards. -/
def phonolite_audio_collect_done_samples (player : Option PhonoliteAudioPlayer) :
    Int × Option PhonoliteAudioPlayer :=
  match player with
  | none => (0, none)
  | some p => (p.completed_samples, some { p with completed_samples := 0 })

/-- The function `phonolite_audio_is_idle`. -/
def phonolite_audio_is_idle (player : Option PhonoliteAudioPlayer) : Int :=
  match player with
  | none => 1
  | some p => if p.in_flight = 0 then 1 else 0

/-! ## Opening an engine -/

/-- Answers to one `phonolite_audio_open`.  From the OS: whether `calloc`
returned memory, the status of `AudioQueueNewOutput` and the value it left in
`player->queue` (`0` for `NULL`), the status of `AudioQueueSetProperty`, and the
status of `AudioQueueStart`.  From the compiled code, read only when the
`int32_t` product `channels * 2` overflows: the values stored in
`mBytesPerPacket` and in `mBytesPerFrame`. -/
structure OpenAnswers where
  callocOk : Bool
  newOutputStatus : Int
  newOutputQueue : Nat
  setPropertyStatus : Int
  startStatus : Int
  overflowBytesPerPacket : Int
  overflowBytesPerFrame : Int
deriving DecidableEq, Repr

/-- Outcome of `phonolite_audio_open`: the handle (`none` for `NULL`) and the
OS calls made. -/
structure OpenResult where
  handle : Option PhonoliteAudioPlayer
  calls : List OSCall
deriving DecidableEq, Repr

/-- The function `phonolite_audio_open`. -/
def phonolite_audio_open (sampleRate channels deviceId : Int) (os : OpenAnswers) :
    OpenResult :=
  if sampleRate ≤ 0 ∨ channels ≤ 0 then
    { handle := none, calls := [] }
  else if os.callocOk = false then
    { handle := none, calls := [OSCall.calloc] }
  else
    let asbd : AudioStreamBasicDescription :=
      { mSampleRate := sampleRate
        mBytesPerPacket := doubledAsUInt32 channels os.overflowBytesPerPacket
        mFramesPerPacket := 1
        mBytesPerFrame := doubledAsUInt32 channels os.overflowBytesPerFrame
        mChannelsPerFrame := toUInt32 channels
        mBitsPerChannel := 16 }
    let player : PhonoliteAudioPlayer :=
      { queue := os.newOutputQueue
        in_flight := 0
        completed_samples := 0
        sample_rate := sampleRate
        channels := channels }
    let created := [OSCall.calloc, OSCall.AudioQueueNewOutput asbd]
    if os.newOutputStatus ≠ noErr ∨ player.queue = 0 then
      { handle := none, calls := created ++ [OSCall.free] }
    else
      let bound :=
        if deviceId ≥ 0 then
          created ++ [OSCall.AudioQueueSetProperty player.queue (toUInt32 deviceId)]
        else created
      if os.startStatus ≠ noErr then
        { handle := none
          calls := bound ++ [OSCall.AudioQueueStart player.queue,
                             OSCall.AudioQueueDispose player.queue, OSCall.free] }
      else
        { handle := some player, calls := bound ++ [OSCall.AudioQueueStart player.queue] }

/-! ## Device catalogue -/

/-- Answers for the stream configuration of one device.  From CoreAudio: status
and size from `AudioObjectGetPropertyDataSize`, whether `malloc` returned
memory, the status of `AudioObjectGetPropertyData`, and
`mBuffers[i].mNumberChannels` for `i < mNumberBuffers`.  From the compiled
code, read only when the `int` sum of the channel counts overflows: the result
of `phonolite_device_has_output`. -/
structure StreamConfiguration where
  sizeStatus : Int
  size : Int
  mallocOk : Bool
  dataStatus : Int
  mNumberChannels : List Int
  overflowResult : Int

/-- Answers of CoreAudio to the queries of the device catalogue.  The device
array is described by the status and byte size from
`AudioObjectGetPropertyDataSize`, whether `malloc` returned memory, the status
of `AudioObjectGetPropertyData` and the contents `devicesData i` of
`devices[i]` after that call.  Per device: the status and the value of
`kAudioDevicePropertyDeviceIsAlive`, and the stream configuration. -/
structure CoreAudioAnswers where
  devicesSizeStatus : Int
  devicesSize : Int
  devicesMallocOk : Bool
  devicesDataStatus : Int
  devicesData : Nat → Int
  aliveStatus : Int → Int
  aliveValue : Int → Int
  streamConfiguration : Int → StreamConfiguration

/-- The function `phonolite_device_is_alive`. -/
def phonolite_device_is_alive (os : CoreAudioAnswers) (device : Int) : Int :=
  if os.aliveStatus device ≠ noErr then 0
  else if toUInt32 (os.aliveValue device) ≠ 0 then 1 else 0

/-- The loop of `phonolite_device_has_output` summing `mNumberChannels` into an
`int`: `none` when one of the signed additions overflows. -/
def sumChannels : List Int → Int → Option Int
  | [], channels => some channels
  | n :: rest, channels =>
    if -2147483648 ≤ channels + toInt32 (toUInt32 n) ∧
        channels + toInt32 (toUInt32 n) ≤ 2147483647 then
      sumChannels rest (channels + toInt32 (toUInt32 n))
    else none

/-- The function `phonolite_device_has_output`. -/
def phonolite_device_has_output (os : CoreAudioAnswers) (device : Int) : Int :=
  let cfg := os.streamConfiguration device
  if cfg.sizeStatus ≠ noErr ∨ toUInt32 cfg.size = 0 then 0
  else if cfg.mallocOk = false then 0
  else if cfg.dataStatus ≠ noErr then 0
  else
    match sumChannels cfg.mNumberChannels 0 with
    | some channels => if channels > 0 then 1 else 0
    | none => cfg.overflowResult

/-- The function `phonolite_get_all_devices`: `none` for the result `0`, otherwise the
contents of `*outDevices`, of length `*outCount`.  Sizes and identifiers are
`UInt32` values. -/
def phonolite_get_all_devices (os : CoreAudioAnswers) : Option (List Int) :=
  let size := toUInt32 os.devicesSize
  if os.devicesSizeStatus ≠ noErr ∨ size = 0 then none
  else
    let count := size / 4
    if os.devicesMallocOk = false then none
    else if os.devicesDataStatus ≠ noErr then none
    else some ((List.range count.toNat).map fun i => toUInt32 (os.devicesData i))

/-- The loop of `phonolite_audio_get_output_device_count` over the remaining
devices, from the current `outputCount`. -/
def countOutputDevices (os : CoreAudioAnswers) : List Int → Int → Int
  | [], outputCount => outputCount
  | device :: rest, outputCount =>
    if phonolite_device_is_alive os device = 0 then
      countOutputDevices os rest outputCount
    else if phonolite_device_has_output os device ≠ 0 then
      countOutputDevices os rest (toInt32 (outputCount + 1))
    else
      countOutputDevices os rest outputCount

/-- The function `phonolite_audio_get_output_device_count`. -/
def phonolite_audio_get_output_device_count (os : CoreAudioAnswers) : Int :=
  match phonolite_get_all_devices os with
  | none => 0
  | some devices => countOutputDevices os devices 0

/-- The loop of `phonolite_audio_get_output_device_id` over the remaining
devices, from the current value of `current`; the result is `0` unless the
loop breaks. -/
def findOutputDevice (os : CoreAudioAnswers) (index : Int) : List Int → Int → Int
  | [], _ => 0
  | device :: rest, current =>
    if phonolite_device_is_alive os device = 0 then
      findOutputDevice os index rest current
    else if phonolite_device_has_output os device = 0 then
      findOutputDevice os index rest current
    else if current = index then
      toUInt32 device
    else
      findOutputDevice os index rest (toInt32 (current + 1))

/-- The function `phonolite_audio_get_output_device_id`. -/
def phonolite_audio_get_output_device_id (os : CoreAudioAnswers) (index : Int) : Int :=
  if index < 0 then 0
  else
    match phonolite_get_all_devices os with
    | none => 0
    | some devices => findOutputDevice os index devices 0

/-- The filter shared by the two enumerations: the device is reported alive and
reported to have an output channel. -/
def isLiveOutput (os : CoreAudioAnswers) (device : Int) : Bool :=
  phonolite_device_is_alive os device ≠ 0 && phonolite_device_has_output os device ≠ 0

/-! ## Traces of an open engine

One engine, the caller and the audio queue.  The queue holds the buffers it
accepted and has not completed yet; it may complete them in any order. -/

/-- A buffer held by the queue, with the sample count that was passed to the
`phonolite_audio_write` call that enqueued it. -/
structure Enqueued where
  buffer : AudioQueueBuffer
  written : Int
deriving DecidableEq, Repr

/-- The engine and the buffers the queue holds. -/
structure World where
  player : PhonoliteAudioPlayer
  pending : List Enqueued
deriving DecidableEq, Repr

/-- A step of a trace: a call of `phonolite_audio_write` with the answers of
the OS, the completion callback for the `i`-th buffer held by the queue, or a
call of `phonolite_audio_collect_done_samples`. -/
inductive Event where
  | write (samples : Nat) (sampleCount : Int) (os : WriteAnswers)
  | callback (i : Nat)
  | drain
deriving DecidableEq, Repr

/-- What a step showed: the code returned by a write and whether the queue
accepted its buffer, the written sample count of the buffer whose callback
fired, or the value returned by a drain. -/
inductive Obs where
  | wrote (ret : Int) (submitted : Bool)
  | fired (written : Int)
  | drained (n : Int)
deriving DecidableEq, Repr

/-- One step.  A callback for a position at which the queue holds no buffer
cannot happen and is no step: the world is unchanged and nothing is observed. -/
def step (w : World) : Event → World × List Obs
  | .write samples sampleCount os =>
    let r := phonolite_audio_write (some w.player) samples sampleCount os
    let p := r.player.getD w.player
    match r.enqueued with
    | none => ({ player := p, pending := w.pending }, [Obs.wrote r.ret false])
    | some b =>
      ({ player := p, pending := w.pending ++ [{ buffer := b, written := sampleCount }] },
       [Obs.wrote r.ret true])
  | .callback i =>
    match w.pending.get? i with
    | none => (w, [])
    | some e =>
      let r := phonolite_audio_output_callback (some w.player) w.player.queue e.buffer
      ({ player := r.1.getD w.player, pending := w.pending.eraseIdx i }, [Obs.fired e.written])
  | .drain =>
    let r := phonolite_audio_collect_done_samples (some w.player)
    ({ player := r.2.getD w.player, pending := w.pending }, [Obs.drained r.1])

/-- A trace, with the observations in order. -/
def run (w : World) : List Event → World × List Obs
  | [] => (w, [])
  | e :: es =>
    let r := step w e
    let rs := run r.1 es
    (rs.1, r.2 ++ rs.2)

/-- Number of buffers the queue accepted. -/
def submittedCount : List Obs → Int
  | [] => 0
  | Obs.wrote _ true :: rest => submittedCount rest + 1
  | _ :: rest => submittedCount rest

/-- Number of completion callbacks that fired. -/
def firedCount : List Obs → Int
  | [] => 0
  | Obs.fired _ :: rest => firedCount rest + 1
  | _ :: rest => firedCount rest

/-- Sum of the written sample counts of the buffers whose callback fired. -/
def firedSamples : List Obs → Int
  | [] => 0
  | Obs.fired c :: rest => firedSamples rest + c
  | _ :: rest => firedSamples rest

/-- Sum of the values returned by the drains. -/
def drainedSamples : List Obs → Int
  | [] => 0
  | Obs.drained n :: rest => drainedSamples rest + n
  | _ :: rest => drainedSamples rest

/-- The sample counts passed to the writes of a trace, in order. -/
def writtenCounts : List Event → List Int
  | [] => []
  | Event.write _ c _ :: rest => c :: writtenCounts rest
  | _ :: rest => writtenCounts rest

/-- The sample count of a write is an `int32_t`. -/
def Event.wellTyped : Event → Prop
  | .write _ c _ => -2147483648 ≤ c ∧ c ≤ INT32_MAX
  | _ => True

/-- A step of the schedules of successful writes and callbacks: a write with
non-null samples, a positive `int32_t` sample count, an allocated buffer and an
accepted enqueue, or a callback. -/
def Event.isGoodWriteOrCallback : Event → Prop
  | .write samples c os =>
    samples ≠ 0 ∧ 0 < c ∧ c ≤ INT32_MAX ∧
      os.allocStatus = noErr ∧ os.allocBuffer ≠ 0 ∧ os.enqueueStatus = noErr
  | .callback _ => True
  | .drain => False

instance (e : Event) : Decidable e.wellTyped := by
  cases e <;> unfold Event.wellTyped <;> infer_instance

instance (e : Event) : Decidable e.isGoodWriteOrCallback := by
  cases e <;> unfold Event.isGoodWriteOrCallback <;> infer_instance

/-- An engine as `phonolite_audio_open` returns it. -/
def FreshlyOpened (p : PhonoliteAudioPlayer) : Prop :=
  ∃ sampleRate channels deviceId os,
    (phonolite_audio_open sampleRate channels deviceId os).handle = some p

/-- The counters of a player hold values of their types: `in_flight` an `int`,
`completed_samples` a `long long`. -/
def CountersInRange (p : PhonoliteAudioPlayer) : Prop :=
  -2147483648 ≤ p.in_flight ∧ p.in_flight ≤ 2147483647 ∧
    -9223372036854775808 ≤ p.completed_samples ∧ p.completed_samples ≤ 9223372036854775807

instance (p : PhonoliteAudioPlayer) : Decidable (CountersInRange p) := by
  unfold CountersInRange; infer_instance

/-- Sum of the written sample counts of the buffers the queue holds. -/
def pendingSamples (l : List Enqueued) : Int := (l.map fun e => e.written).sum

/-- Every buffer the queue holds carries its written count in `mUserData`, and
that count is positive. -/
def PendingTagged (l : List Enqueued) : Prop :=
  ∀ e ∈ l, toInt32 e.buffer.mUserData = e.written ∧ 0 < e.written

/-- Whether the addition made by a step stays within `long long`: for the
callback of a buffer the queue holds, `completed_samples` plus the count read
from the buffer is at most `2^63 - 1`; every other step adds nothing. -/
def stepKeepsCompleted (w : World) : Event → Bool
  | .callback i =>
    match w.pending.get? i with
    | some e =>
      decide (w.player.completed_samples + toInt32 e.buffer.mUserData ≤ 9223372036854775807)
    | none => true
  | _ => true

/-- Whether no callback of the trace takes `completed_samples` above
`2^63 - 1`. -/
def completedStaysInRange (w : World) : List Event → Bool
  | [] => true
  | e :: es => stepKeepsCompleted w e && completedStaysInRange (step w e).1 es

/-- The schedule of `n` rounds in which the write `e` is followed by the
callback of its buffer. -/
def roundTrips (e : Event) : Nat → List Event
  | 0 => []
  | n + 1 => e :: Event.callback 0 :: roundTrips e n

/-- Answers of a write whose buffer is allocated at `ref` and accepted. -/
def accepted (ref : Nat) : WriteAnswers :=
  { allocStatus := 0, allocBuffer := ref, enqueueStatus := 0,
    overflowAllocSize := 0, overflowCopySize := 0, overflowStoredSize := 0 }

/-- Answers of a write whose buffer is allocated at `ref` and whose enqueue
fails with `status`. -/
def refused (ref : Nat) (status : Int) : WriteAnswers :=
  { allocStatus := 0, allocBuffer := ref, enqueueStatus := status,
    overflowAllocSize := 0, overflowCopySize := 0, overflowStoredSize := 0 }

/-- The engine returned by `phonolite_audio_open(44100, 2, -1)` when every OS
call succeeds and the queue is at address `7`. -/
def exampleEngine : PhonoliteAudioPlayer :=
  { queue := 7, in_flight := 0, completed_samples := 0, sample_rate := 44100, channels := 2 }

/-- Three accepted writes of 960 samples; the second buffer completes first. -/
def exampleSchedule : List Event :=
  [Event.write 1000 960 (accepted 11), Event.write 1000 960 (accepted 12), Event.callback 1,
   Event.write 1000 960 (accepted 13), Event.callback 0, Event.callback 0]

/-- Writes of 960 and 480 samples with a drain between their callbacks. -/
def exampleDrainTrace : List Event :=
  [Event.write 1000 960 (accepted 11), Event.write 1000 480 (accepted 12), Event.callback 0,
   Event.drain, Event.drain, Event.callback 0]

/-- The schedule of `n` rounds of an accepted write of `2^30 - 1` samples
followed by its callback. -/
def longPlayback (n : Nat) : List Event :=
  roundTrips (Event.write 1000 1073741823 (accepted 11)) n

/-- Four devices `41 .. 44`: device `42` is not alive, device `43` has a stream
configuration without channels, the other two have two output channels. -/
def exampleCoreAudio : CoreAudioAnswers :=
  { devicesSizeStatus := 0
    devicesSize := 16
    devicesMallocOk := true
    devicesDataStatus := 0
    devicesData := fun i => 41 + i
    aliveStatus := fun _ => 0
    aliveValue := fun d => if d = 42 then 0 else 1
    streamConfiguration := fun d =>
      if d = 43 then
        { sizeStatus := 0, size := 8, mallocOk := true, dataStatus := 0, mNumberChannels := [0],
          overflowResult := 0 }
      else
        { sizeStatus := 0, size := 24, mallocOk := true, dataStatus := 0,
          mNumberChannels := [2], overflowResult := 0 } }

/-! ## Machine integer lemmas -/

theorem toInt32_of_range {x : Int} (h1 : -2147483648 ≤ x) (h2 : x ≤ 2147483647) :
    toInt32 x = x := by
  unfold toInt32; omega

theorem toIntPtr_of_range {x : Int} (h1 : -2147483648 ≤ x) (h2 : x ≤ 2147483647) :
    toIntPtr x = x := by
  unfold toIntPtr; omega

theorem toInt64_of_range {x : Int} (h1 : -9223372036854775808 ≤ x)
    (h2 : x ≤ 9223372036854775807) : toInt64 x = x := by
  unfold toInt64; omega

theorem toInt32_range (x : Int) : -2147483648 ≤ toInt32 x ∧ toInt32 x ≤ 2147483647 := by
  unfold toInt32; omega

theorem toInt64_range (x : Int) :
    -9223372036854775808 ≤ toInt64 x ∧ toInt64 x ≤ 9223372036854775807 := by
  unfold toInt64; omega

theorem toInt32_add (a b : Int) : toInt32 (toInt32 a + b) = toInt32 (a + b) := by
  unfold toInt32; omega

theorem toInt64_add (a b : Int) : toInt64 (toInt64 a + b) = toInt64 (a + b) := by
  unfold toInt64; omega

/-- An increment followed by a decrement of an `atomic_int` restores it. -/
theorem toInt32_succ_pred {x : Int} (h1 : -2147483648 ≤ x) (h2 : x ≤ 2147483647) :
    toInt32 (toInt32 (x + 1) - 1) = x := by
  unfold toInt32; omega

/-- The stored sample count is read back unchanged. -/
theorem userData_roundtrip {c : Int} (h1 : -2147483648 ≤ c) (h2 : c ≤ 2147483647) :
    toInt32 (toIntPtr c) = c := by
  rw [toIntPtr_of_range h1 h2, toInt32_of_range h1 h2]

/-- The byte size is `2 * sampleCount` while the product is an `int32_t`. -/
theorem byteSize_eq {c : Int} (h1 : 0 < c) (h2 : c ≤ 1073741823) (onOverflow : Int) :
    byteSize c onOverflow = 2 * c := by
  unfold byteSize doubledAsUInt32 toUInt32
  rw [if_pos (by omega)]
  omega

/-! ## Single calls -/

/-- C3: `phonolite_audio_write` with a null handle, a null sample pointer or
`sampleCount ≤ 0` returns `-1`, makes no OS call, enqueues nothing and leaves the
player behind the handle (so `in_flight` and `completed_samples`) as it was;
the answer of `phonolite_audio_is_idle` is the same before and after, so an
idle engine stays idle. -/
theorem write_invalid_argument (player : Option PhonoliteAudioPlayer) (samples : Nat)
    (sampleCount : Int) (os : WriteAnswers)
    (h : player = none ∨ samples = 0 ∨ sampleCount ≤ 0) :
    (phonolite_audio_write player samples sampleCount os).ret = -1 ∧
    (phonolite_audio_write player samples sampleCount os).ret < 0 ∧
    (phonolite_audio_write player samples sampleCount os).player = player ∧
    (phonolite_audio_write player samples sampleCount os).calls = [] ∧
    (phonolite_audio_write player samples sampleCount os).enqueued = none ∧
    phonolite_audio_is_idle (phonolite_audio_write player samples sampleCount os).player
      = phonolite_audio_is_idle player := by
  cases player with
  | none => simp [phonolite_audio_write]
  | some p =>
    have h' : samples = 0 ∨ sampleCount ≤ 0 := by
      rcases h with h | h | h
      · cases h
      · exact Or.inl h
      · exact Or.inr h
    simp [phonolite_audio_write, h']

/-- Witness for C3: a write of `-5` samples on an idle engine returns `-1` and
the engine is still idle. -/
theorem write_invalid_argument_witness :
    ((some exampleEngine = none ∨ 1000 = 0 ∨ (-5 : Int) ≤ 0) ∧
    (phonolite_audio_write (some exampleEngine) 1000 (-5) (accepted 9)).ret = -1 ∧
    phonolite_audio_is_idle
      (phonolite_audio_write (some exampleEngine) 1000 (-5) (accepted 9)).player
      = phonolite_audio_is_idle (some exampleEngine)) ∧
    phonolite_audio_is_idle (some exampleEngine) = 1 :=
  ⟨⟨Or.inr (Or.inr (by decide)),
    (write_invalid_argument (some exampleEngine) 1000 (-5) (accepted 9)
      (Or.inr (Or.inr (by decide)))).1,
    (write_invalid_argument (some exampleEngine) 1000 (-5) (accepted 9)
      (Or.inr (Or.inr (by decide)))).2.2.2.2.2⟩, rfl⟩

/-- C7: on a non-null handle `phonolite_audio_collect_done_samples` returns the
value `completed_samples` held, leaves `completed_samples` at `0` and every
other field as it was; on a null handle it returns `0`. -/
theorem collect_done_samples_read_and_clear :
    (∀ p : PhonoliteAudioPlayer,
      (phonolite_audio_collect_done_samples (some p)).1 = p.completed_samples ∧
      (phonolite_audio_collect_done_samples (some p)).2 =
        some { queue := p.queue, in_flight := p.in_flight, completed_samples := 0,
               sample_rate := p.sample_rate, channels := p.channels }) ∧
    phonolite_audio_collect_done_samples none = (0, none) := by
  refine ⟨fun p => ⟨rfl, rfl⟩, rfl⟩

/-- The write returns `0` exactly when its buffer was accepted by the queue, or
when the arguments and the queue are valid and `AudioQueueAllocateBuffer`
reported `noErr` while leaving the buffer at `NULL`. -/
theorem write_ret_zero_iff (p : PhonoliteAudioPlayer) (samples : Nat) (c : Int)
    (os : WriteAnswers) :
    (phonolite_audio_write (some p) samples c os).ret = 0 ↔
      ((phonolite_audio_write (some p) samples c os).enqueued ≠ none ∨
        (samples ≠ 0 ∧ 0 < c ∧ p.queue ≠ 0 ∧ os.allocStatus = noErr ∧ os.allocBuffer = 0)) := by
  by_cases hs : samples = 0
  · simp [phonolite_audio_write, hs]
  by_cases hc : c ≤ 0
  · simp [phonolite_audio_write, hc]
  by_cases hq : p.queue = 0
  · simp [phonolite_audio_write, hs, hc, hq]
  by_cases ha : os.allocStatus = noErr
  swap
  · simp [phonolite_audio_write, hs, hc, hq, ha]
    exact ha
  by_cases hb : os.allocBuffer = 0
  · simp [phonolite_audio_write, hs, hc, hq, ha, hb]
    exact ⟨fun _ => not_le.mp hc, fun _ => rfl⟩
  by_cases he : os.enqueueStatus = noErr
  · simp [phonolite_audio_write, hs, hc, hq, ha, hb, he]
  · simp [phonolite_audio_write, hs, hc, hq, ha, hb, he]
    exact he

/-- C4, the code at the failing input: the handle, the samples and the count
are valid, `AudioQueueAllocateBuffer` reports `noErr` and leaves `buffer` at
`NULL`.  The write takes the failure branch of line 117, enqueues nothing,
leaves `in_flight` at `0`, and returns `(int32_t)status`, which is `0`. -/
theorem write_null_buffer_reports_success :
    phonolite_audio_write (some ⟨7, 0, 0, 44100, 2⟩) 1000 960 ⟨0, 0, 0, 0, 0, 0⟩ =
      { ret := 0
        player := some ⟨7, 0, 0, 44100, 2⟩
        calls := [OSCall.AudioQueueAllocateBuffer 7 1920]
        enqueued := none } := by
  decide

/-- A write with valid arguments whose buffer is allocated and accepted. -/
theorem write_success (p : PhonoliteAudioPlayer) (samples : Nat) (sampleCount : Int)
    (os : WriteAnswers) (hs : samples ≠ 0) (hc : 0 < sampleCount) (hq : p.queue ≠ 0)
    (ha : os.allocStatus = noErr) (hb : os.allocBuffer ≠ 0) (he : os.enqueueStatus = noErr) :
    phonolite_audio_write (some p) samples sampleCount os =
      { ret := 0
        player := some { queue := p.queue, in_flight := toInt32 (p.in_flight + 1),
                         completed_samples := p.completed_samples,
                         sample_rate := p.sample_rate, channels := p.channels }
        calls := [OSCall.AudioQueueAllocateBuffer p.queue
                    (byteSize sampleCount os.overflowAllocSize),
                  OSCall.memcpy os.allocBuffer samples
                    (byteSize sampleCount os.overflowCopySize),
                  OSCall.AudioQueueEnqueueBuffer p.queue
                    ⟨os.allocBuffer, byteSize sampleCount os.overflowStoredSize,
                      toIntPtr sampleCount⟩]
        enqueued := some ⟨os.allocBuffer, byteSize sampleCount os.overflowStoredSize,
                      toIntPtr sampleCount⟩ } := by
  have hc' : ¬ sampleCount ≤ 0 := not_le.mpr hc
  simp [phonolite_audio_write, hs, hc', hq, ha, hb, he]

/-- A write with valid arguments whose buffer is allocated and whose enqueue
fails, on a player whose `in_flight` is an `int`. -/
theorem write_refused (p : PhonoliteAudioPlayer) (samples : Nat) (sampleCount : Int)
    (os : WriteAnswers) (hs : samples ≠ 0) (hc : 0 < sampleCount) (hq : p.queue ≠ 0)
    (ha : os.allocStatus = noErr) (hb : os.allocBuffer ≠ 0) (he : os.enqueueStatus ≠ noErr)
    (h1 : -2147483648 ≤ p.in_flight) (h2 : p.in_flight ≤ 2147483647) :
    phonolite_audio_write (some p) samples sampleCount os =
      { ret := os.enqueueStatus
        player := some p
        calls := [OSCall.AudioQueueAllocateBuffer p.queue
                    (byteSize sampleCount os.overflowAllocSize),
                  OSCall.memcpy os.allocBuffer samples
                    (byteSize sampleCount os.overflowCopySize),
                  OSCall.AudioQueueEnqueueBuffer p.queue
                    ⟨os.allocBuffer, byteSize sampleCount os.overflowStoredSize,
                      toIntPtr sampleCount⟩,
                  OSCall.AudioQueueFreeBuffer p.queue os.allocBuffer]
        enqueued := none } := by
  have hc' : ¬ sampleCount ≤ 0 := not_le.mpr hc
  simp [phonolite_audio_write, hs, hc', hq, ha, hb, he, toInt32_succ_pred h1 h2]

/-- C5, as amended: on a player whose `in_flight` is an `int`, a valid write
whose buffer is allocated and whose enqueue fails returns the enqueue status
(which is not `0`), enqueues nothing, frees the buffer as its last OS call and
leaves the player (so `in_flight` and `completed_samples`) exactly as before the
call; a following write that succeeds returns `0` and leaves `in_flight` at the
next `int` after the value before the failed call, which is one more below
`2^31 - 1` and `-2^31` at `2^31 - 1`, everything else unchanged. -/
theorem write_enqueue_failure_rolls_back (p : PhonoliteAudioPlayer) (samples : Nat)
    (sampleCount : Int) (os : WriteAnswers)
    (hs : samples ≠ 0) (hc : 0 < sampleCount) (hq : p.queue ≠ 0)
    (ha : os.allocStatus = noErr) (hb : os.allocBuffer ≠ 0)
    (he : os.enqueueStatus ≠ noErr)
    (h1 : -2147483648 ≤ p.in_flight) (h2 : p.in_flight ≤ 2147483647) :
    (phonolite_audio_write (some p) samples sampleCount os).ret = os.enqueueStatus ∧
    (phonolite_audio_write (some p) samples sampleCount os).ret ≠ 0 ∧
    (phonolite_audio_write (some p) samples sampleCount os).player = some p ∧
    (phonolite_audio_write (some p) samples sampleCount os).enqueued = none ∧
    (phonolite_audio_write (some p) samples sampleCount os).calls.getLast? =
      some (OSCall.AudioQueueFreeBuffer p.queue os.allocBuffer) ∧
    ∀ (samples2 : Nat) (sampleCount2 : Int) (os2 : WriteAnswers),
      samples2 ≠ 0 → 0 < sampleCount2 → os2.allocStatus = noErr → os2.allocBuffer ≠ 0 →
      os2.enqueueStatus = noErr →
      (phonolite_audio_write (phonolite_audio_write (some p) samples sampleCount os).player
          samples2 sampleCount2 os2).ret = 0 ∧
      (phonolite_audio_write (phonolite_audio_write (some p) samples sampleCount os).player
          samples2 sampleCount2 os2).player =
        some { queue := p.queue,
               in_flight := if p.in_flight = 2147483647 then -2147483648 else p.in_flight + 1,
               completed_samples := p.completed_samples,
               sample_rate := p.sample_rate, channels := p.channels } := by
  rw [write_refused p samples sampleCount os hs hc hq ha hb he h1 h2]
  refine ⟨rfl, he, rfl, rfl, rfl, ?_⟩
  intro samples2 sampleCount2 os2 hs2 hc2 ha2 hb2 he2
  rw [write_success p samples2 sampleCount2 os2 hs2 hc2 hq ha2 hb2 he2]
  refine ⟨rfl, ?_⟩
  have hw : toInt32 (p.in_flight + 1) =
      if p.in_flight = 2147483647 then -2147483648 else p.in_flight + 1 := by
    unfold toInt32
    split_ifs <;> omega
  simp only [hw]

/-- Witness for C5: the enqueue of a 960 sample buffer fails with `-66687` on an
engine with two buffers in flight; the next accepted write leaves three. -/
theorem write_enqueue_failure_rolls_back_witness :
    (phonolite_audio_write (some ⟨7, 2, 480, 44100, 2⟩) 1000 960 (refused 9 (-66687))).ret
      = -66687 ∧
    (phonolite_audio_write (some ⟨7, 2, 480, 44100, 2⟩) 1000 960 (refused 9 (-66687))).player
      = some ⟨7, 2, 480, 44100, 2⟩ ∧
    (phonolite_audio_write
      (phonolite_audio_write (some ⟨7, 2, 480, 44100, 2⟩) 1000 960 (refused 9 (-66687))).player
      1000 960 (accepted 10)).player = some ⟨7, 3, 480, 44100, 2⟩ :=
  have h := write_enqueue_failure_rolls_back ⟨7, 2, 480, 44100, 2⟩ 1000 960
    (refused 9 (-66687))
    (by decide) (by decide) (by decide) (by decide) (by decide) (by decide)
    (by decide) (by decide)
  ⟨h.1, h.2.2.1,
   (h.2.2.2.2.2 1000 960 (accepted 10) (by decide) (by decide) (by decide) (by decide)
      (by decide)).2⟩

/-- Counterexample for C5 as stated: with `in_flight` at `2^31 - 1` the write
whose enqueue fails leaves the player as it was, and the accepted write that
follows leaves `in_flight` at `-2^31`, not one above `2^31 - 1`. -/
theorem write_after_rollback_wraps_at_int_max :
    (phonolite_audio_write (some ⟨7, 2147483647, 0, 44100, 2⟩) 1000 960
      (refused 9 (-66687))).player = some ⟨7, 2147483647, 0, 44100, 2⟩ ∧
    (phonolite_audio_write
      (phonolite_audio_write (some ⟨7, 2147483647, 0, 44100, 2⟩) 1000 960
        (refused 9 (-66687))).player 1000 960 (accepted 10)).ret = 0 ∧
    (phonolite_audio_write
      (phonolite_audio_write (some ⟨7, 2147483647, 0, 44100, 2⟩) 1000 960
        (refused 9 (-66687))).player 1000 960 (accepted 10)).player
      = some ⟨7, -2147483648, 0, 44100, 2⟩ := by
  decide

/-- The handle returned by `phonolite_audio_open`, branch by branch. -/
theorem open_handle (sampleRate channels deviceId : Int) (os : OpenAnswers) :
    (phonolite_audio_open sampleRate channels deviceId os).handle =
      if sampleRate ≤ 0 ∨ channels ≤ 0 then none
      else if os.callocOk = false then none
      else if os.newOutputStatus ≠ noErr ∨ os.newOutputQueue = 0 then none
      else if os.startStatus ≠ noErr then none
      else some { queue := os.newOutputQueue, in_flight := 0, completed_samples := 0,
                  sample_rate := sampleRate, channels := channels } := by
  unfold phonolite_audio_open
  by_cases h1 : sampleRate ≤ 0 ∨ channels ≤ 0
  · simp only [h1, if_true]
  · by_cases h2 : os.callocOk = false
    · simp only [h1, h2, if_true, if_false]
    · by_cases h3 : os.newOutputStatus ≠ noErr ∨ os.newOutputQueue = 0
      · rw [if_neg h1, if_neg h2, if_pos h3, if_neg h1, if_neg h2, if_pos h3]
      · by_cases h4 : os.startStatus ≠ noErr
        · rw [if_neg h1, if_neg h2, if_neg h3, if_pos h4, if_neg h1, if_neg h2, if_neg h3,
            if_pos h4]
        · rw [if_neg h1, if_neg h2, if_neg h3, if_neg h4, if_neg h1, if_neg h2, if_neg h3,
            if_neg h4]

/-- C9: `phonolite_audio_open` returns a handle exactly when `sampleRate > 0`,
`channels > 0`, `calloc` returned memory, `AudioQueueNewOutput` reported `noErr`
and stored a queue, and `AudioQueueStart` reported `noErr`; with
`sampleRate ≤ 0` or `channels ≤ 0` it returns `NULL` having made no OS call at
all; and replacing the status of `AudioQueueSetProperty` by any other value
changes neither the handle nor the calls made. -/
theorem open_succeeds_iff (sampleRate channels deviceId : Int) (os : OpenAnswers) :
    ((phonolite_audio_open sampleRate channels deviceId os).handle ≠ none ↔
      (0 < sampleRate ∧ 0 < channels ∧ os.callocOk = true ∧
        (os.newOutputStatus = noErr ∧ os.newOutputQueue ≠ 0) ∧ os.startStatus = noErr)) ∧
    ((sampleRate ≤ 0 ∨ channels ≤ 0) →
      (phonolite_audio_open sampleRate channels deviceId os).handle = none ∧
      (phonolite_audio_open sampleRate channels deviceId os).calls = []) ∧
    (∀ status : Int,
      phonolite_audio_open sampleRate channels deviceId
          { os with setPropertyStatus := status } =
        phonolite_audio_open sampleRate channels deviceId os) := by
  refine ⟨?_, ?_, ?_⟩
  · rw [open_handle]
    split_ifs with h1 h2 h3 h4
    · simp only [ne_eq, not_true_eq_false, false_iff]
      rintro ⟨hs, hc, -⟩
      rcases h1 with h1 | h1 <;> omega
    · simp [h2]
    · simp only [ne_eq, not_true_eq_false, false_iff]
      rintro ⟨-, -, -, ⟨hn, hq⟩, -⟩
      rcases h3 with h3 | h3
      · exact h3 hn
      · exact hq h3
    · simp only [ne_eq, not_true_eq_false, false_iff]
      rintro ⟨-, -, -, -, hst⟩
      exact h4 hst
    · simp only [ne_eq, reduceCtorEq, not_false_eq_true, true_iff]
      refine ⟨?_, ?_, ?_, ⟨?_, ?_⟩, ?_⟩
      · by_contra h; exact h1 (Or.inl (not_lt.mp h))
      · by_contra h; exact h1 (Or.inr (not_lt.mp h))
      · cases hco : os.callocOk
        · exact absurd hco h2
        · rfl
      · by_contra h; exact h3 (Or.inl h)
      · intro h; exact h3 (Or.inr h)
      · exact not_not.mp h4
  · intro h
    simp [phonolite_audio_open, h]
  · intro status
    rfl

/-- Witness for C9: `open(44100, 2, -1)` with every OS call succeeding returns
a handle; a negative sample rate gives `NULL` with no OS call. -/
theorem open_succeeds_iff_witness :
    (phonolite_audio_open 44100 2 (-1) ⟨true, 0, 7, 0, 0, 0, 0⟩).handle ≠ none ∧
    (((-1 : Int) ≤ 0 ∨ (2 : Int) ≤ 0) ∧
      (phonolite_audio_open (-1) 2 (-1) ⟨true, 0, 7, 0, 0, 0, 0⟩).handle = none ∧
      (phonolite_audio_open (-1) 2 (-1) ⟨true, 0, 7, 0, 0, 0, 0⟩).calls = []) :=
  ⟨(open_succeeds_iff 44100 2 (-1) ⟨true, 0, 7, 0, 0, 0, 0⟩).1.mpr (by decide),
   Or.inl (by decide),
   (open_succeeds_iff (-1) 2 (-1) ⟨true, 0, 7, 0, 0, 0, 0⟩).2.1 (Or.inl (by decide))⟩


/-- The callback on a buffer whose user data converts to a positive count. -/
theorem callback_adds (q : PhonoliteAudioPlayer) (aq : Nat) (b : AudioQueueBuffer)
    (h : 0 < toInt32 b.mUserData) :
    (phonolite_audio_output_callback (some q) aq b).1 =
      some { queue := q.queue, in_flight := toInt32 (q.in_flight - 1),
             completed_samples := toInt64 (q.completed_samples + toInt32 b.mUserData),
             sample_rate := q.sample_rate, channels := q.channels } := by
  simp [phonolite_audio_output_callback, h]

/-- While the product of line 114 is an `int32_t` (`0 < sampleCount ≤ 2^30 - 1`)
a valid write whose buffer is allocated asks `AudioQueueAllocateBuffer` for
`2 * sampleCount` bytes, copies that many bytes and stores that number in
`mAudioDataByteSize`; and for every positive `int32_t` count the completion
callback on the buffer reads the count back from `mUserData` and adds it to
`completed_samples`. -/
theorem write_byte_size_in_range (sampleCount : Int) (h1 : 0 < sampleCount)
    (h2 : sampleCount ≤ INT32_MAX) (p : PhonoliteAudioPlayer) (samples : Nat)
    (os : WriteAnswers) (hs : samples ≠ 0) (hq : p.queue ≠ 0)
    (ha : os.allocStatus = noErr) (hb : os.allocBuffer ≠ 0) :
    ∃ (buffer : AudioQueueBuffer) (rest : List OSCall),
      (phonolite_audio_write (some p) samples sampleCount os).calls =
        OSCall.AudioQueueAllocateBuffer p.queue (byteSize sampleCount os.overflowAllocSize) ::
        OSCall.memcpy os.allocBuffer samples (byteSize sampleCount os.overflowCopySize) ::
        OSCall.AudioQueueEnqueueBuffer p.queue buffer :: rest ∧
      buffer.ref = os.allocBuffer ∧
      buffer.mAudioDataByteSize = byteSize sampleCount os.overflowStoredSize ∧
      (sampleCount ≤ 1073741823 →
        byteSize sampleCount os.overflowAllocSize = 2 * sampleCount ∧
        byteSize sampleCount os.overflowCopySize = 2 * sampleCount ∧
        byteSize sampleCount os.overflowStoredSize = 2 * sampleCount) ∧
      toInt32 buffer.mUserData = sampleCount ∧
      ∀ q : PhonoliteAudioPlayer,
        (phonolite_audio_output_callback (some q) q.queue buffer).1 =
          some { queue := q.queue, in_flight := toInt32 (q.in_flight - 1),
                 completed_samples := toInt64 (q.completed_samples + sampleCount),
                 sample_rate := q.sample_rate, channels := q.channels } := by
  unfold INT32_MAX at h2
  have hud : toInt32 (toIntPtr sampleCount) = sampleCount := userData_roundtrip (by omega) h2
  have hc' : ¬ sampleCount ≤ 0 := not_le.mpr h1
  have hsz : sampleCount ≤ 1073741823 →
      byteSize sampleCount os.overflowAllocSize = 2 * sampleCount ∧
      byteSize sampleCount os.overflowCopySize = 2 * sampleCount ∧
      byteSize sampleCount os.overflowStoredSize = 2 * sampleCount :=
    fun h => ⟨byteSize_eq h1 h _, byteSize_eq h1 h _, byteSize_eq h1 h _⟩
  have hcb : ∀ q : PhonoliteAudioPlayer,
      (phonolite_audio_output_callback (some q) q.queue
        ⟨os.allocBuffer, byteSize sampleCount os.overflowStoredSize,
          toIntPtr sampleCount⟩).1 =
        some { queue := q.queue, in_flight := toInt32 (q.in_flight - 1),
               completed_samples := toInt64 (q.completed_samples + sampleCount),
               sample_rate := q.sample_rate, channels := q.channels } := by
    intro q
    have := callback_adds q q.queue
      ⟨os.allocBuffer, byteSize sampleCount os.overflowStoredSize, toIntPtr sampleCount⟩
      (by rw [hud]; exact h1)
    rw [this, hud]
  refine ⟨⟨os.allocBuffer, byteSize sampleCount os.overflowStoredSize,
    toIntPtr sampleCount⟩, ?_⟩
  by_cases he : os.enqueueStatus ≠ noErr
  · refine ⟨[OSCall.AudioQueueFreeBuffer p.queue os.allocBuffer], ?_, rfl, rfl, hsz, hud, hcb⟩
    simp [phonolite_audio_write, hs, hc', hq, ha, hb, he]
  · refine ⟨[], ?_, rfl, rfl, hsz, hud, hcb⟩
    simp [phonolite_audio_write, hs, hc', hq, ha, hb, he]

/-- C10, the code at the failing input `sampleCount = 2^30`: the product of line
114 is `2^31`, which is not an `int32_t`, so the multiplication overflows; the
sizes passed to `AudioQueueAllocateBuffer` and to `memcpy` and the size stored
in `mAudioDataByteSize` are then whatever the compiled code produces (`a`, `b`
and `c` below), not `2 * sampleCount`.  With `b = 2^64 - 2^31`, the wrapped
product sign-extended to `size_t`, `memcpy` is asked for `18446744071562067968`
bytes where the claim says `2147483648`. -/
theorem write_byte_size_overflows (a b c : Int) :
    ¬ ((1073741824 : Int) * 2 ≤ 2147483647) ∧
    phonolite_audio_write (some exampleEngine) 1000 1073741824
        { allocStatus := 0, allocBuffer := 9, enqueueStatus := 0,
          overflowAllocSize := a, overflowCopySize := b, overflowStoredSize := c } =
      { ret := 0
        player := some ⟨7, 1, 0, 44100, 2⟩
        calls := [OSCall.AudioQueueAllocateBuffer 7 a, OSCall.memcpy 9 1000 b,
                  OSCall.AudioQueueEnqueueBuffer 7 ⟨9, c, 1073741824⟩]
        enqueued := some ⟨9, c, 1073741824⟩ } := by
  refine ⟨by decide, ?_⟩
  rw [write_success exampleEngine 1000 1073741824 _ (by decide) (by decide) (by decide) rfl
    (Nat.succ_ne_zero 8) rfl]
  have hsz : ∀ x : Int, byteSize 1073741824 x = x := by
    intro x
    unfold byteSize doubledAsUInt32
    rw [if_neg (by decide)]
  simp only [hsz]
  rfl

/-! ## Traces -/

/-- A write on a player whose `in_flight` is an `int` either enqueues nothing
and leaves the player as it was, or has a positive count, enqueues the tagged
buffer, adds one to `in_flight` and returns `0`. -/
theorem write_cases (p : PhonoliteAudioPlayer) (samples : Nat) (c : Int) (os : WriteAnswers)
    (h1 : -2147483648 ≤ p.in_flight) (h2 : p.in_flight ≤ 2147483647) :
    ((phonolite_audio_write (some p) samples c os).enqueued = none ∧
      (phonolite_audio_write (some p) samples c os).player = some p) ∨
    (0 < c ∧ (phonolite_audio_write (some p) samples c os).ret = 0 ∧
      (phonolite_audio_write (some p) samples c os).enqueued =
        some ⟨os.allocBuffer, byteSize c os.overflowStoredSize, toIntPtr c⟩ ∧
      (phonolite_audio_write (some p) samples c os).player =
        some { queue := p.queue, in_flight := toInt32 (p.in_flight + 1),
               completed_samples := p.completed_samples,
               sample_rate := p.sample_rate, channels := p.channels }) := by
  by_cases hs : samples = 0
  · left; simp [phonolite_audio_write, hs]
  by_cases hc : c ≤ 0
  · left; simp [phonolite_audio_write, hc]
  by_cases hq : p.queue = 0
  · left; simp [phonolite_audio_write, hs, hc, hq]
  by_cases ha : os.allocStatus = noErr
  swap
  · left; simp [phonolite_audio_write, hs, hc, hq, ha]
  by_cases hb : os.allocBuffer = 0
  · left; simp [phonolite_audio_write, hs, hc, hq, hb]
  by_cases he : os.enqueueStatus = noErr
  · right
    rw [write_success p samples c os hs (not_le.mp hc) hq ha hb he]
    exact ⟨not_le.mp hc, rfl, rfl, rfl⟩
  · left
    rw [write_refused p samples c os hs (not_le.mp hc) hq ha hb he h1 h2]
    exact ⟨rfl, rfl⟩

theorem length_eraseIdx_of_get? {α : Type} (l : List α) (i : Nat) (a : α)
    (h : l.get? i = some a) : (l.eraseIdx i).length + 1 = l.length := by
  induction l generalizing i with
  | nil => simp at h
  | cons x xs ih =>
    cases i with
    | zero => simp
    | succ j =>
      simp only [List.get?_cons_succ] at h
      simp only [List.eraseIdx_cons_succ, List.length_cons]
      rw [ih j h]

theorem pendingSamples_eraseIdx (l : List Enqueued) (i : Nat) (e : Enqueued)
    (h : l.get? i = some e) : pendingSamples (l.eraseIdx i) + e.written = pendingSamples l := by
  induction l generalizing i with
  | nil => simp at h
  | cons x xs ih =>
    cases i with
    | zero =>
      simp only [List.get?_cons_zero, Option.some.injEq] at h
      subst h
      simp [pendingSamples]
      omega
    | succ j =>
      simp only [List.get?_cons_succ] at h
      have := ih j h
      simp only [pendingSamples, List.eraseIdx_cons_succ, List.map_cons, List.sum_cons] at this ⊢
      omega

theorem mem_of_get? {α : Type} (l : List α) (i : Nat) (a : α) (h : l.get? i = some a) :
    a ∈ l := by
  induction l generalizing i with
  | nil => simp at h
  | cons x xs ih =>
    cases i with
    | zero =>
      simp only [List.get?_cons_zero, Option.some.injEq] at h
      subst h
      exact List.mem_cons_self _ _
    | succ j =>
      simp only [List.get?_cons_succ] at h
      exact List.mem_cons_of_mem _ (ih j h)

theorem mem_of_mem_eraseIdx {α : Type} (l : List α) (i : Nat) (a : α)
    (h : a ∈ l.eraseIdx i) : a ∈ l := by
  induction l generalizing i with
  | nil => simp at h
  | cons x xs ih =>
    cases i with
    | zero =>
      simp only [List.eraseIdx_cons_zero] at h
      exact List.mem_cons_of_mem _ h
    | succ j =>
      simp only [List.eraseIdx_cons_succ, List.mem_cons] at h
      rcases h with h | h
      · subst h; exact List.mem_cons_self _ _
      · exact List.mem_cons_of_mem _ (ih j h)

theorem submittedCount_append (a b : List Obs) :
    submittedCount (a ++ b) = submittedCount a + submittedCount b := by
  induction a with
  | nil => simp [submittedCount]
  | cons x xs ih =>
    cases x with
    | wrote r sub =>
      cases sub
      · simp [submittedCount, ih]
      · simp [submittedCount, ih]; omega
    | fired c => simp [submittedCount, ih]
    | drained n => simp [submittedCount, ih]

theorem firedCount_append (a b : List Obs) :
    firedCount (a ++ b) = firedCount a + firedCount b := by
  induction a with
  | nil => simp [firedCount]
  | cons x xs ih =>
    cases x with
    | wrote r sub => simp [firedCount, ih]
    | fired c => simp [firedCount, ih]; omega
    | drained n => simp [firedCount, ih]

theorem firedSamples_append (a b : List Obs) :
    firedSamples (a ++ b) = firedSamples a + firedSamples b := by
  induction a with
  | nil => simp [firedSamples]
  | cons x xs ih =>
    cases x with
    | wrote r sub => simp [firedSamples, ih]
    | fired c => simp [firedSamples, ih]; omega
    | drained n => simp [firedSamples, ih]

theorem drainedSamples_append (a b : List Obs) :
    drainedSamples (a ++ b) = drainedSamples a + drainedSamples b := by
  induction a with
  | nil => simp [drainedSamples]
  | cons x xs ih =>
    cases x with
    | wrote r sub => simp [drainedSamples, ih]
    | fired c => simp [drainedSamples, ih]
    | drained n => simp [drainedSamples, ih]; omega

/-- The step of a write that enqueues nothing. -/
theorem step_write_rejected (w : World) (samples : Nat) (c : Int) (os : WriteAnswers)
    (h1 : (phonolite_audio_write (some w.player) samples c os).enqueued = none)
    (h2 : (phonolite_audio_write (some w.player) samples c os).player = some w.player) :
    step w (Event.write samples c os) =
      (w, [Obs.wrote (phonolite_audio_write (some w.player) samples c os).ret false]) := by
  simp only [step, h1, h2, Option.getD_some]

/-- The step of a write whose buffer the queue accepts. -/
theorem step_write_accepted (w : World) (samples : Nat) (c : Int) (os : WriteAnswers)
    (b : AudioQueueBuffer) (q : PhonoliteAudioPlayer)
    (h1 : (phonolite_audio_write (some w.player) samples c os).enqueued = some b)
    (h2 : (phonolite_audio_write (some w.player) samples c os).player = some q) :
    step w (Event.write samples c os) =
      ({ player := q, pending := w.pending ++ [{ buffer := b, written := c }] },
       [Obs.wrote (phonolite_audio_write (some w.player) samples c os).ret true]) := by
  simp only [step, h1, h2, Option.getD_some]

/-- The step of a callback for a buffer the queue holds. -/
theorem step_callback_fired (w : World) (i : Nat) (e : Enqueued)
    (h : w.pending.get? i = some e) :
    step w (Event.callback i) =
      ({ player :=
          { queue := w.player.queue, in_flight := toInt32 (w.player.in_flight - 1),
            completed_samples :=
              if toInt32 e.buffer.mUserData > 0 then
                toInt64 (w.player.completed_samples + toInt32 e.buffer.mUserData)
              else w.player.completed_samples,
            sample_rate := w.player.sample_rate, channels := w.player.channels },
         pending := w.pending.eraseIdx i },
       [Obs.fired e.written]) := by
  simp only [step, h, phonolite_audio_output_callback, Option.getD_some]
  by_cases hpos : toInt32 e.buffer.mUserData > 0
  · simp only [hpos, if_true]
  · simp only [hpos, if_false]

/-- The step of a callback for a position at which the queue holds nothing. -/
theorem step_callback_none (w : World) (i : Nat) (h : w.pending.get? i = none) :
    step w (Event.callback i) = (w, []) := by
  simp only [step, h]

/-- The step of a drain. -/
theorem step_drain (w : World) :
    step w Event.drain =
      ({ player := { queue := w.player.queue, in_flight := w.player.in_flight,
                     completed_samples := 0, sample_rate := w.player.sample_rate,
                     channels := w.player.channels },
         pending := w.pending },
       [Obs.drained w.player.completed_samples]) := by
  simp only [step, phonolite_audio_collect_done_samples, Option.getD_some]


/-- One step keeps the counters within their types. -/
theorem step_counters_in_range (w : World) (ev : Event) (h : CountersInRange w.player) :
    CountersInRange (step w ev).1.player := by
  obtain ⟨h1, h2, h3, h4⟩ := h
  cases ev with
  | write samples c os =>
    rcases write_cases w.player samples c os h1 h2 with ⟨e1, e2⟩ | ⟨_, _, e1, e2⟩
    · rw [step_write_rejected w samples c os e1 e2]
      exact ⟨h1, h2, h3, h4⟩
    · rw [step_write_accepted w samples c os _ _ e1 e2]
      exact ⟨(toInt32_range _).1, (toInt32_range _).2, h3, h4⟩
  | callback i =>
    cases h : w.pending.get? i with
    | none =>
      rw [step_callback_none w i h]
      exact ⟨h1, h2, h3, h4⟩
    | some e =>
      rw [step_callback_fired w i e h]
      refine ⟨(toInt32_range _).1, (toInt32_range _).2, ?_, ?_⟩
      · simp only
        split_ifs
        · exact (toInt64_range _).1
        · exact h3
      · simp only
        split_ifs
        · exact (toInt64_range _).2
        · exact h4
  | drain =>
    rw [step_drain]
    refine ⟨h1, h2, ?_, ?_⟩ <;> simp

/-- One step keeps the queue handle, changes the number of buffers the queue
holds by the number of accepted buffers minus the number of fired callbacks,
and changes `in_flight` by the same amount reduced to an `int`. -/
theorem step_in_flight (w : World) (ev : Event) (h : CountersInRange w.player) :
    (step w ev).1.player.queue = w.player.queue ∧
    (step w ev).1.player.in_flight =
      toInt32 (w.player.in_flight + submittedCount (step w ev).2 - firedCount (step w ev).2) ∧
    ((step w ev).1.pending.length : Int) =
      w.pending.length + submittedCount (step w ev).2 - firedCount (step w ev).2 := by
  obtain ⟨h1, h2, -, -⟩ := h
  cases ev with
  | write samples c os =>
    rcases write_cases w.player samples c os h1 h2 with ⟨e1, e2⟩ | ⟨_, _, e1, e2⟩
    · rw [step_write_rejected w samples c os e1 e2]
      refine ⟨rfl, ?_, ?_⟩
      · simp only [submittedCount, firedCount]
        unfold toInt32; omega
      · simp only [submittedCount, firedCount]
        omega
    · rw [step_write_accepted w samples c os _ _ e1 e2]
      refine ⟨rfl, ?_, ?_⟩
      · simp only [submittedCount, firedCount]
        unfold toInt32; omega
      · simp only [submittedCount, firedCount, List.length_append, List.length_singleton,
          Nat.cast_add, Nat.cast_one]
        omega
  | callback i =>
    cases h : w.pending.get? i with
    | none =>
      rw [step_callback_none w i h]
      refine ⟨rfl, ?_, ?_⟩
      · simp only [submittedCount, firedCount]
        unfold toInt32; omega
      · simp only [submittedCount, firedCount]
        omega
    | some e =>
      rw [step_callback_fired w i e h]
      have hl := length_eraseIdx_of_get? w.pending i e h
      refine ⟨rfl, ?_, ?_⟩
      · simp only [submittedCount, firedCount]
        unfold toInt32; omega
      · simp only [submittedCount, firedCount]
        omega
  | drain =>
    rw [step_drain]
    refine ⟨rfl, ?_, ?_⟩
    · simp only [submittedCount, firedCount]
      unfold toInt32; omega
    · simp only [submittedCount, firedCount]
      omega

/-- Over a trace the counters stay within their types, the queue handle is
kept, the number of buffers the queue holds changes by the number of accepted
buffers minus the number of fired callbacks, and `in_flight` changes by the
same amount reduced to an `int`. -/
theorem run_in_flight (es : List Event) (w : World) (h : CountersInRange w.player) :
    CountersInRange (run w es).1.player ∧
    (run w es).1.player.queue = w.player.queue ∧
    (run w es).1.player.in_flight =
      toInt32 (w.player.in_flight + submittedCount (run w es).2 - firedCount (run w es).2) ∧
    ((run w es).1.pending.length : Int) =
      w.pending.length + submittedCount (run w es).2 - firedCount (run w es).2 := by
  induction es generalizing w with
  | nil =>
    refine ⟨h, rfl, ?_, ?_⟩
    · obtain ⟨h1, h2, -, -⟩ := h
      simp only [run, submittedCount, firedCount]
      unfold toInt32; omega
    · simp only [run, submittedCount, firedCount]
      omega
  | cons e es ih =>
    have hs := step_in_flight w e h
    have hr := ih (step w e).1 (step_counters_in_range w e h)
    simp only [run, submittedCount_append, firedCount_append]
    refine ⟨hr.1, hr.2.1.trans hs.1, ?_, by omega⟩
    rw [hr.2.2.1, hs.2.1]
    unfold toInt32; omega

/-- One step whose addition stays within `long long` keeps the tags of the
buffers the queue holds, accounts for every sample (`completed_samples` plus
what the step drained is the old `completed_samples` plus what the step
completed) and keeps `completed_samples` non-negative. -/
theorem step_samples (w : World) (ev : Event) (hw : PendingTagged w.pending)
    (hty : ev.wellTyped) (hr : CountersInRange w.player)
    (h0 : 0 ≤ w.player.completed_samples) (hk : stepKeepsCompleted w ev = true) :
    PendingTagged (step w ev).1.pending ∧
    (step w ev).1.player.completed_samples + drainedSamples (step w ev).2 =
      w.player.completed_samples + firedSamples (step w ev).2 ∧
    0 ≤ (step w ev).1.player.completed_samples := by
  cases ev with
  | write samples c os =>
    rcases write_cases w.player samples c os hr.1 hr.2.1 with ⟨h1, h2⟩ | ⟨hc, _, h1, h2⟩
    · rw [step_write_rejected w samples c os h1 h2]
      simp [drainedSamples, firedSamples, hw, h0]
    · rw [step_write_accepted w samples c os _ _ h1 h2]
      refine ⟨?_, by simp [drainedSamples, firedSamples], h0⟩
      intro e he
      simp only [List.mem_append, List.mem_singleton] at he
      rcases he with he | he
      · exact hw e he
      · subst he
        have hty' : -2147483648 ≤ c ∧ c ≤ 2147483647 := hty
        exact ⟨userData_roundtrip hty'.1 hty'.2, hc⟩
  | callback i =>
    cases h : w.pending.get? i with
    | none =>
      rw [step_callback_none w i h]
      simp [drainedSamples, firedSamples, hw, h0]
    | some e =>
      have htag := hw e (mem_of_get? w.pending i e h)
      have hk' : w.player.completed_samples + e.written ≤ 9223372036854775807 := by
        unfold stepKeepsCompleted at hk
        simp only [h, decide_eq_true_eq, htag.1] at hk
        exact hk
      rw [step_callback_fired w i e h]
      have hpos : e.written > 0 := htag.2
      have hadd : toInt64 (w.player.completed_samples + e.written) =
          w.player.completed_samples + e.written :=
        toInt64_of_range (by omega) hk'
      refine ⟨fun x hx => hw x (mem_of_mem_eraseIdx w.pending i x hx), ?_, ?_⟩
      · simp only [htag.1, hpos, if_true, drainedSamples, firedSamples, hadd]
        omega
      · simp only [htag.1, hpos, if_true, hadd]
        omega
  | drain =>
    rw [step_drain]
    simp [drainedSamples, firedSamples, hw]

/-- Over a trace in which no callback takes `completed_samples` above
`2^63 - 1` every sample is accounted for and `completed_samples` stays
non-negative. -/
theorem run_samples (es : List Event) (w : World) (hw : PendingTagged w.pending)
    (hty : ∀ e ∈ es, e.wellTyped) (hr : CountersInRange w.player)
    (h0 : 0 ≤ w.player.completed_samples) (hk : completedStaysInRange w es = true) :
    (run w es).1.player.completed_samples + drainedSamples (run w es).2 =
      w.player.completed_samples + firedSamples (run w es).2 ∧
    0 ≤ (run w es).1.player.completed_samples := by
  induction es generalizing w with
  | nil => simp [run, drainedSamples, firedSamples, h0]
  | cons e es ih =>
    simp only [completedStaysInRange, Bool.and_eq_true] at hk
    have hs := step_samples w e hw (hty e (List.mem_cons_self _ _)) hr h0 hk.1
    have hrest := ih (step w e).1 hs.1 (fun x hx => hty x (List.mem_cons_of_mem _ hx))
      (step_counters_in_range w e hr) hs.2.2 hk.2
    simp only [run, drainedSamples_append, firedSamples_append]
    exact ⟨by omega, hrest.2⟩

/-- Over a schedule of successful writes and callbacks, `completed_samples` plus
the written counts of the buffers still held by the queue grows by the counts
written, up to the reduction to `long long`. -/
theorem run_good (es : List Event) (w : World) (hq : w.player.queue ≠ 0)
    (hw : PendingTagged w.pending) (hr : CountersInRange w.player)
    (hg : ∀ e ∈ es, e.isGoodWriteOrCallback) :
    toInt64 ((run w es).1.player.completed_samples + pendingSamples (run w es).1.pending) =
      toInt64 (w.player.completed_samples + pendingSamples w.pending
        + (writtenCounts es).sum) := by
  induction es generalizing w with
  | nil => simp [run, writtenCounts]
  | cons e es ih =>
    have hge := hg e (List.mem_cons_self _ _)
    have hrest : ∀ x ∈ es, x.isGoodWriteOrCallback :=
      fun x hx => hg x (List.mem_cons_of_mem _ hx)
    have hqs := (step_in_flight w e hr).1
    have hrs := step_counters_in_range w e hr
    cases e with
    | write samples c os =>
      obtain ⟨hs, hc, hmax, ha, hb, he⟩ := hge
      unfold INT32_MAX at hmax
      have hwr := write_success w.player samples c os hs hc hq ha hb he
      have hstep := step_write_accepted w samples c os _ _
        (by rw [hwr]) (by rw [hwr])
      have htag : PendingTagged (step w (Event.write samples c os)).1.pending := by
        rw [hstep]
        intro x hx
        simp only [List.mem_append, List.mem_singleton] at hx
        rcases hx with hx | hx
        · exact hw x hx
        · subst hx
          exact ⟨userData_roundtrip (by omega) hmax, hc⟩
      have hr' := ih (step w (Event.write samples c os)).1 (by rw [hqs]; exact hq) htag hrs
        hrest
      simp only [run, writtenCounts, List.sum_cons]
      rw [hr', hstep]
      simp only [pendingSamples, List.map_append, List.map_cons, List.map_nil,
        List.sum_append, List.sum_cons, List.sum_nil]
      congr 1
      omega
    | callback i =>
      simp only [run, writtenCounts]
      cases h : w.pending.get? i with
      | none =>
        have hstep := step_callback_none w i h
        have hr' := ih (step w (Event.callback i)).1 (by rw [hqs]; exact hq)
          (by rw [hstep]; exact hw) hrs hrest
        rw [hr', hstep]
      | some x =>
        have hstep := step_callback_fired w i x h
        have htag := hw x (mem_of_get? w.pending i x h)
        have hpos : toInt32 x.buffer.mUserData > 0 := by rw [htag.1]; exact htag.2
        have hr' := ih (step w (Event.callback i)).1 (by rw [hqs]; exact hq)
          (by rw [hstep]; exact fun y hy => hw y (mem_of_mem_eraseIdx w.pending i y hy))
          hrs hrest
        have hsum := pendingSamples_eraseIdx w.pending i x h
        rw [hr', hstep]
        simp only [htag.1, htag.2, gt_iff_lt, if_true]
        rw [show toInt64 (w.player.completed_samples + x.written)
              + pendingSamples (w.pending.eraseIdx i) + (writtenCounts es).sum
            = toInt64 (w.player.completed_samples + x.written)
              + (pendingSamples (w.pending.eraseIdx i) + (writtenCounts es).sum) by ring,
          toInt64_add]
        congr 1
        omega
    | drain => exact absurd hge (by simp [Event.isGoodWriteOrCallback])

/-- Over a schedule of successful writes and callbacks on an engine with a
queue, every write is accepted. -/
theorem run_good_submitted (es : List Event) (w : World) (hq : w.player.queue ≠ 0)
    (hr : CountersInRange w.player) (hg : ∀ e ∈ es, e.isGoodWriteOrCallback) :
    submittedCount (run w es).2 = (writtenCounts es).length := by
  induction es generalizing w with
  | nil => simp [run, writtenCounts, submittedCount]
  | cons e es ih =>
    have hge := hg e (List.mem_cons_self _ _)
    have hrest : ∀ x ∈ es, x.isGoodWriteOrCallback :=
      fun x hx => hg x (List.mem_cons_of_mem _ hx)
    have hqs := (step_in_flight w e hr).1
    have hr' := ih (step w e).1 (by rw [hqs]; exact hq) (step_counters_in_range w e hr) hrest
    simp only [run, submittedCount_append, hr']
    cases e with
    | write samples c os =>
      obtain ⟨hs, hc, _, ha, hb, he⟩ := hge
      have hwr := write_success w.player samples c os hs hc hq ha hb he
      rw [step_write_accepted w samples c os _ _ (by rw [hwr]) (by rw [hwr])]
      simp [writtenCounts, submittedCount]
      omega
    | callback i =>
      cases h : w.pending.get? i with
      | none => rw [step_callback_none w i h]; simp [writtenCounts, submittedCount]
      | some x => rw [step_callback_fired w i x h]; simp [writtenCounts, submittedCount]
    | drain => exact absurd hge (by simp [Event.isGoodWriteOrCallback])

/-- The counts written by a schedule of successful writes and callbacks are
positive, so their sum is not negative. -/
theorem writtenCounts_sum_nonneg (es : List Event) (hg : ∀ e ∈ es, e.isGoodWriteOrCallback) :
    0 ≤ (writtenCounts es).sum := by
  induction es with
  | nil => simp [writtenCounts]
  | cons e es ih =>
    have hge := hg e (List.mem_cons_self _ _)
    have hrest := ih (fun x hx => hg x (List.mem_cons_of_mem _ hx))
    cases e with
    | write samples c os =>
      obtain ⟨_, hc, _⟩ := hge
      simp only [writtenCounts, List.sum_cons]
      omega
    | callback i => simpa [writtenCounts] using hrest
    | drain => simpa [writtenCounts] using hrest

/-- A freshly opened engine has a queue and both counters at zero. -/
theorem freshlyOpened_fields (p : PhonoliteAudioPlayer) (hp : FreshlyOpened p) :
    p.queue ≠ 0 ∧ p.in_flight = 0 ∧ p.completed_samples = 0 := by
  obtain ⟨sampleRate, channels, deviceId, os, h⟩ := hp
  rw [open_handle] at h
  split_ifs at h with h1 h2 h3 h4
  simp only [Option.some.injEq] at h
  subst h
  refine ⟨fun hq => h3 (Or.inr hq), rfl, rfl⟩

/-- The counters of a freshly opened engine are within their types. -/
theorem freshlyOpened_in_range (p : PhonoliteAudioPlayer) (hp : FreshlyOpened p) :
    CountersInRange p := by
  obtain ⟨_, hf, hc⟩ := freshlyOpened_fields p hp
  unfold CountersInRange
  rw [hf, hc]
  decide

/-- A schedule of `n` rounds of one accepted write followed by the callback of
its buffer, started with an empty queue: the queue is empty again,
`completed_samples` has grown by `n` times the count, reduced to `long long`,
the callbacks fired account for `n` times the count, and nothing was drained. -/
theorem run_roundTrips (samples : Nat) (c : Int) (os : WriteAnswers)
    (hs : samples ≠ 0) (hc : 0 < c) (hmax : c ≤ 2147483647) (ha : os.allocStatus = noErr)
    (hb : os.allocBuffer ≠ 0) (he : os.enqueueStatus = noErr) (n : Nat) (w : World)
    (hq : w.player.queue ≠ 0) (hp : w.pending = []) (hr : CountersInRange w.player) :
    (run w (roundTrips (Event.write samples c os) n)).1.pending = [] ∧
    (run w (roundTrips (Event.write samples c os) n)).1.player.completed_samples =
      toInt64 (w.player.completed_samples + n * c) ∧
    firedSamples (run w (roundTrips (Event.write samples c os) n)).2 = n * c ∧
    drainedSamples (run w (roundTrips (Event.write samples c os) n)).2 = 0 := by
  induction n generalizing w with
  | zero =>
    obtain ⟨-, -, h3, h4⟩ := hr
    simp only [roundTrips, run, firedSamples, drainedSamples, hp, Nat.cast_zero, zero_mul,
      add_zero, true_and, and_true]
    exact (toInt64_of_range h3 h4).symm
  | succ n ih =>
    have hwr := write_success w.player samples c os hs hc hq ha hb he
    have hstep1 := step_write_accepted w samples c os _ _ (by rw [hwr]) (by rw [hwr])
    rw [hp, List.nil_append] at hstep1
    have hr1 := step_counters_in_range w (Event.write samples c os) hr
    have hq1 := (step_in_flight w (Event.write samples c os) hr).1
    have hud : toInt32 (toIntPtr c) = c := userData_roundtrip (by omega) hmax
    have hget : (step w (Event.write samples c os)).1.pending.get? 0 =
        some { buffer := ⟨os.allocBuffer, byteSize c os.overflowStoredSize, toIntPtr c⟩,
               written := c } := by
      rw [hstep1]; rfl
    have hstep2 := step_callback_fired (step w (Event.write samples c os)).1 0 _ hget
    have hr2 := step_counters_in_range _ (Event.callback 0) hr1
    have hq2 := (step_in_flight _ (Event.callback 0) hr1).1
    have hp2 : (step (step w (Event.write samples c os)).1 (Event.callback 0)).1.pending
        = [] := by
      rw [hstep2, hstep1]; rfl
    have hc2 : (step (step w (Event.write samples c os)).1
        (Event.callback 0)).1.player.completed_samples =
        toInt64 (w.player.completed_samples + c) := by
      rw [hstep2, hstep1]
      simp only [hud, hc, gt_iff_lt, if_true]
    have hrest := ih (step (step w (Event.write samples c os)).1 (Event.callback 0)).1
      (by rw [hq2, hq1]; exact hq) hp2 hr2
    simp only [roundTrips, run, firedSamples_append, drainedSamples_append]
    refine ⟨hrest.1, ?_, ?_, ?_⟩
    · rw [hrest.2.1, hc2, toInt64_add]
      congr 1
      push_cast
      ring
    · rw [hrest.2.2.1, hstep2, hstep1]
      simp only [firedSamples]
      push_cast
      ring
    · rw [hrest.2.2.2, hstep2, hstep1]
      simp only [drainedSamples]
      ring

/-- The counts written by `n` rounds of a write of `c` samples, and the
schedule being one of successful writes and callbacks. -/
theorem roundTrips_written (samples : Nat) (c : Int) (os : WriteAnswers)
    (hg : (Event.write samples c os).isGoodWriteOrCallback) (n : Nat) :
    (∀ e ∈ roundTrips (Event.write samples c os) n, e.isGoodWriteOrCallback) ∧
    (writtenCounts (roundTrips (Event.write samples c os) n)).sum = n * c := by
  induction n with
  | zero => simp [roundTrips, writtenCounts]
  | succ n ih =>
    constructor
    · intro e he
      simp only [roundTrips, List.mem_cons] at he
      rcases he with he | he | he
      · rw [he]; exact hg
      · rw [he]; trivial
      · exact ih.1 e he
    · simp only [roundTrips, writtenCounts, List.sum_cons, ih.2]
      push_cast
      ring

/-- The drain of a non-null handle returns `completed_samples`. -/
theorem collect_returns (p : PhonoliteAudioPlayer) :
    (phonolite_audio_collect_done_samples (some p)).1 = p.completed_samples := rfl

/-- A successful write has an `int32_t` sample count. -/
theorem wellTyped_of_good (e : Event) (h : e.isGoodWriteOrCallback) : e.wellTyped := by
  cases e with
  | write samples c os =>
    obtain ⟨_, hc, hmax, _⟩ := h
    exact ⟨by omega, hmax⟩
  | callback i => trivial
  | drain => trivial

/-! ## Accounting over traces -/

/-- C1, as amended: on a freshly opened engine, after any schedule of successful
writes (positive `int32_t` counts) and completion callbacks at the end of which
the queue holds no buffer (every callback has fired, one per write), a call of
`phonolite_audio_collect_done_samples` returns the sum of the counts written
reduced to `int64_t`, which is the sum itself whenever the sum is at most
`2^63 - 1`, and the call right after it returns `0`. -/
theorem collect_after_all_callbacks (p : PhonoliteAudioPlayer) (hp : FreshlyOpened p)
    (es : List Event) (hg : ∀ e ∈ es, e.isGoodWriteOrCallback)
    (hdone : (run ⟨p, []⟩ es).1.pending = []) :
    firedCount (run ⟨p, []⟩ es).2 = (writtenCounts es).length ∧
    (phonolite_audio_collect_done_samples (some (run ⟨p, []⟩ es).1.player)).1
      = toInt64 (writtenCounts es).sum ∧
    ((writtenCounts es).sum ≤ 9223372036854775807 →
      (phonolite_audio_collect_done_samples (some (run ⟨p, []⟩ es).1.player)).1
        = (writtenCounts es).sum) ∧
    (phonolite_audio_collect_done_samples
      (phonolite_audio_collect_done_samples (some (run ⟨p, []⟩ es).1.player)).2).1 = 0 := by
  obtain ⟨hq, hf, hcs⟩ := freshlyOpened_fields p hp
  have hr := freshlyOpened_in_range p hp
  have hgood := run_good es ⟨p, []⟩ hq (fun e he => absurd he (List.not_mem_nil e)) hr hg
  have hsub := run_good_submitted es ⟨p, []⟩ hq hr hg
  obtain ⟨hrf, -, -, hfl⟩ := run_in_flight es ⟨p, []⟩ hr
  have hnn := writtenCounts_sum_nonneg es hg
  rw [hdone] at hgood hfl
  simp only [pendingSamples, List.map_nil, List.sum_nil, hcs, List.length_nil, add_zero,
    zero_add] at hgood hfl
  have hval : (run ⟨p, []⟩ es).1.player.completed_samples = toInt64 (writtenCounts es).sum := by
    rw [← hgood]
    exact (toInt64_of_range hrf.2.2.1 hrf.2.2.2).symm
  refine ⟨?_, hval, fun hle => ?_, rfl⟩
  · rw [← hsub]
    have : ((0 : Nat) : Int) = 0 := rfl
    omega
  · exact hval.trans (toInt64_of_range (by omega) hle)

/-- Witness for C1: three writes of 960 samples, the callbacks interleaved and
out of submission order; the drain returns 2880. -/
theorem collect_after_all_callbacks_witness :
    (phonolite_audio_collect_done_samples
      (some (run ⟨exampleEngine, []⟩ exampleSchedule).1.player)).1 = 2880 :=
  (collect_after_all_callbacks exampleEngine
    ⟨44100, 2, -1, ⟨true, 0, 7, 0, 0, 0, 0⟩, by decide⟩ exampleSchedule
    (by decide) (by decide)).2.2.1 (by decide)

/-- Counterexample for C1 as stated: `2^33 + 16` rounds of an accepted write of
`2^30 - 1` samples followed by its callback, on the engine opened by
`open(44100, 2, -1)`.  Every callback has fired and the counts sum to
`9223372045444710384`, but the drain returns `-9223372028264841232`: the
`atomic_llong` wrapped at `2^63`. -/
theorem collect_wraps_after_long_playback :
    (phonolite_audio_open 44100 2 (-1) ⟨true, 0, 7, 0, 0, 0, 0⟩).handle = some exampleEngine ∧
    (∀ e ∈ longPlayback 8589934608, e.isGoodWriteOrCallback) ∧
    (run ⟨exampleEngine, []⟩ (longPlayback 8589934608)).1.pending = [] ∧
    (writtenCounts (longPlayback 8589934608)).sum = 9223372045444710384 ∧
    (phonolite_audio_collect_done_samples
      (some (run ⟨exampleEngine, []⟩ (longPlayback 8589934608)).1.player)).1
      = -9223372028264841232 := by
  have hw := roundTrips_written 1000 1073741823 (accepted 11) (by decide) 8589934608
  have hrun := run_roundTrips 1000 1073741823 (accepted 11) (by decide) (by decide)
    (by decide) rfl (by decide) rfl 8589934608 ⟨exampleEngine, []⟩ (by decide) rfl
    (by decide)
  obtain ⟨hw1, hw2⟩ := hw
  obtain ⟨hr1, hr2, -, -⟩ := hrun
  unfold longPlayback
  refine ⟨by decide, hw1, hr1, ?_, ?_⟩
  · rw [hw2]
    norm_num
  · rw [collect_returns, hr2]
    norm_num [exampleEngine, toInt64]

/-- C6, as amended: at every point of a trace of writes (`int32_t` counts),
completion callbacks and drains on a freshly opened engine in which no
callback takes `completed_samples` above `2^63 - 1`, the sum of the values the
drains returned so far plus `completed_samples` is the sum of the written sample
counts of the buffers whose callback has fired, and `completed_samples` is not
negative. -/
theorem drains_report_each_sample_once (p : PhonoliteAudioPlayer) (hp : FreshlyOpened p)
    (es : List Event) (hty : ∀ e ∈ es, e.wellTyped)
    (hk : completedStaysInRange ⟨p, []⟩ es = true) :
    drainedSamples (run ⟨p, []⟩ es).2 + (run ⟨p, []⟩ es).1.player.completed_samples =
      firedSamples (run ⟨p, []⟩ es).2 ∧
    0 ≤ (run ⟨p, []⟩ es).1.player.completed_samples := by
  obtain ⟨_, _, hcs⟩ := freshlyOpened_fields p hp
  obtain ⟨h1, h2⟩ := run_samples es ⟨p, []⟩ (fun e he => absurd he (List.not_mem_nil e)) hty
    (freshlyOpened_in_range p hp) (by simp only [hcs]; exact le_refl 0) hk
  simp only [hcs] at h1
  exact ⟨by omega, h2⟩

/-- Witness for C6: a drain between two callbacks returns 960, the 480 samples
completed after it are still held in `completed_samples`. -/
theorem drains_report_each_sample_once_witness :
    drainedSamples (run ⟨exampleEngine, []⟩ exampleDrainTrace).2 = 960 ∧
    (run ⟨exampleEngine, []⟩ exampleDrainTrace).1.player.completed_samples = 480 ∧
    drainedSamples (run ⟨exampleEngine, []⟩ exampleDrainTrace).2
      + (run ⟨exampleEngine, []⟩ exampleDrainTrace).1.player.completed_samples
      = firedSamples (run ⟨exampleEngine, []⟩ exampleDrainTrace).2 :=
  ⟨by decide, by decide,
   (drains_report_each_sample_once exampleEngine
    ⟨44100, 2, -1, ⟨true, 0, 7, 0, 0, 0, 0⟩, by decide⟩ exampleDrainTrace (by decide)
    (by decide)).1⟩

/-- Counterexample for C6 as stated: after `2^33 + 16` rounds of an accepted
write of `2^30 - 1` samples followed by its callback, with no drain, the
callbacks fired account for `9223372045444710384` samples while
`completed_samples` is `-9223372028264841232`: negative, and with the `0`
drained so far not the number of samples completed. -/
theorem completed_samples_wraps_negative :
    (phonolite_audio_open 44100 2 (-1) ⟨true, 0, 7, 0, 0, 0, 0⟩).handle = some exampleEngine ∧
    (∀ e ∈ longPlayback 8589934608, e.wellTyped) ∧
    firedSamples (run ⟨exampleEngine, []⟩ (longPlayback 8589934608)).2
      = 9223372045444710384 ∧
    drainedSamples (run ⟨exampleEngine, []⟩ (longPlayback 8589934608)).2 = 0 ∧
    (run ⟨exampleEngine, []⟩ (longPlayback 8589934608)).1.player.completed_samples
      = -9223372028264841232 := by
  have hw := roundTrips_written 1000 1073741823 (accepted 11) (by decide) 8589934608
  have hrun := run_roundTrips 1000 1073741823 (accepted 11) (by decide) (by decide)
    (by decide) rfl (by decide) rfl 8589934608 ⟨exampleEngine, []⟩ (by decide) rfl
    (by decide)
  obtain ⟨-, hr2, hr3, hr4⟩ := hrun
  unfold longPlayback
  refine ⟨by decide, fun e he => wellTyped_of_good e (hw.1 e he), ?_, hr4, ?_⟩
  · rw [hr3]
    norm_num
  · rw [hr2]
    norm_num [exampleEngine, toInt64]

/-! ## Device catalogue -/

theorem toUInt32_idem (x : Int) : toUInt32 (toUInt32 x) = toUInt32 x := by
  unfold toUInt32; omega

/-- The device array has fewer than `2^30` entries, each a `UInt32`. -/
theorem get_all_devices_bounds (os : CoreAudioAnswers) (devices : List Int)
    (h : phonolite_get_all_devices os = some devices) :
    (devices.length : Int) < 1073741824 ∧ ∀ d ∈ devices, toUInt32 d = d := by
  unfold phonolite_get_all_devices at h
  simp only at h
  split_ifs at h with h1 h2 h3
  simp only [Option.some.injEq] at h
  subst h
  constructor
  · simp only [List.length_map, List.length_range]
    have : toUInt32 os.devicesSize < 4294967296 := by unfold toUInt32; omega
    have h0 : 0 ≤ toUInt32 os.devicesSize := by unfold toUInt32; omega
    omega
  · intro d hd
    simp only [List.mem_map, List.mem_range] at hd
    obtain ⟨i, _, rfl⟩ := hd
    exact toUInt32_idem _

/-- The counting loop adds the number of live output devices, the `int32_t`
counter staying in range. -/
theorem countOutputDevices_eq (os : CoreAudioAnswers) (devices : List Int) (outputCount : Int)
    (h0 : 0 ≤ outputCount) (hb : outputCount + devices.length ≤ 2147483647) :
    countOutputDevices os devices outputCount =
      outputCount + ((devices.filter (isLiveOutput os)).length : Int) := by
  induction devices generalizing outputCount with
  | nil => simp [countOutputDevices]
  | cons d ds ih =>
    simp only [List.length_cons, Nat.cast_add, Nat.cast_one] at hb
    unfold countOutputDevices
    by_cases ha : phonolite_device_is_alive os d = 0
    · have hl : isLiveOutput os d = false := by simp [isLiveOutput, ha]
      rw [if_pos ha, ih outputCount h0 (by omega), List.filter_cons_of_neg (by simp [hl])]
    · by_cases ho : phonolite_device_has_output os d ≠ 0
      · have hl : isLiveOutput os d = true := by simp [isLiveOutput, ha, ho]
        rw [if_neg ha, if_pos ho, toInt32_of_range (by omega) (by omega),
          ih (outputCount + 1) (by omega) (by omega), List.filter_cons_of_pos hl]
        simp only [List.length_cons, Nat.cast_add, Nat.cast_one]
        omega
      · have hl : isLiveOutput os d = false := by
          simp only [ne_eq, not_not] at ho
          simp [isLiveOutput, ho]
        rw [if_neg ha, if_neg ho, ih outputCount h0 (by omega),
          List.filter_cons_of_neg (by simp [hl])]

/-- The search loop returns the live output device at position
`index - current` of the remaining devices, or `0` when there is none. -/
theorem findOutputDevice_eq (os : CoreAudioAnswers) (index : Int) (devices : List Int)
    (current : Int) (h0 : 0 ≤ current) (hle : current ≤ index)
    (hb : current + devices.length ≤ 2147483647) :
    findOutputDevice os index devices current =
      (((devices.filter (isLiveOutput os)).get? (index - current).toNat).map toUInt32).getD 0 := by
  induction devices generalizing current with
  | nil => simp [findOutputDevice]
  | cons d ds ih =>
    simp only [List.length_cons, Nat.cast_add, Nat.cast_one] at hb
    unfold findOutputDevice
    by_cases ha : phonolite_device_is_alive os d = 0
    · have hl : isLiveOutput os d = false := by simp [isLiveOutput, ha]
      rw [if_pos ha, ih current h0 hle (by omega), List.filter_cons_of_neg (by simp [hl])]
    · by_cases ho : phonolite_device_has_output os d = 0
      · have hl : isLiveOutput os d = false := by simp [isLiveOutput, ho]
        rw [if_neg ha, if_pos ho, ih current h0 hle (by omega),
          List.filter_cons_of_neg (by simp [hl])]
      · have hl : isLiveOutput os d = true := by simp [isLiveOutput, ha, ho]
        rw [if_neg ha, if_neg ho, List.filter_cons_of_pos hl]
        by_cases hc : current = index
        · rw [if_pos hc, hc]
          simp
        · rw [if_neg hc, toInt32_of_range (by omega) (by omega),
            ih (current + 1) (by omega) (by omega) (by omega)]
          have hk : (index - current).toNat = (index - (current + 1)).toNat + 1 := by omega
          rw [hk, List.get?_cons_succ]

/-- C8: for every device array CoreAudio returns and every pair of
alive and has-output answers per device,
`phonolite_audio_get_output_device_count` is the number of devices reported
alive and with an output channel, and `phonolite_audio_get_output_device_id`
returns, for `0 ≤ index < count`, the device at position `index` of the array
filtered in that way (order kept), and `0` for a negative index or an index at
or above the count; with no such device the count is `0` and every index gives
`0`.  When CoreAudio returns no array the count is `0` and every index gives
`0` as well. -/
theorem output_device_enumeration (os : CoreAudioAnswers) :
    (∀ devices : List Int, phonolite_get_all_devices os = some devices →
      phonolite_audio_get_output_device_count os =
        ((devices.filter (isLiveOutput os)).length : Int) ∧
      (∀ index : Int, 0 ≤ index → index < phonolite_audio_get_output_device_count os →
        (devices.filter (isLiveOutput os)).get? index.toNat =
          some (phonolite_audio_get_output_device_id os index)) ∧
      (∀ index : Int, index < 0 ∨ phonolite_audio_get_output_device_count os ≤ index →
        phonolite_audio_get_output_device_id os index = 0) ∧
      (devices.filter (isLiveOutput os) = [] →
        phonolite_audio_get_output_device_count os = 0 ∧
        ∀ index : Int, phonolite_audio_get_output_device_id os index = 0)) ∧
    (phonolite_get_all_devices os = none →
      phonolite_audio_get_output_device_count os = 0 ∧
      ∀ index : Int, phonolite_audio_get_output_device_id os index = 0) := by
  constructor
  · intro devices h
    obtain ⟨hlen, hu32⟩ := get_all_devices_bounds os devices h
    have hcount : phonolite_audio_get_output_device_count os =
        ((devices.filter (isLiveOutput os)).length : Int) := by
      simp only [phonolite_audio_get_output_device_count, h]
      rw [countOutputDevices_eq os devices 0 (le_refl 0) (by omega)]
      omega
    have hid : ∀ index : Int, 0 ≤ index →
        phonolite_audio_get_output_device_id os index =
          (((devices.filter (isLiveOutput os)).get? index.toNat).map toUInt32).getD 0 := by
      intro index hi
      simp only [phonolite_audio_get_output_device_id, h, if_neg (not_lt.mpr hi)]
      rw [findOutputDevice_eq os index devices 0 (le_refl 0) hi (by omega)]
      simp
    have hout : ∀ index : Int, index < 0 ∨ phonolite_audio_get_output_device_count os ≤ index →
        phonolite_audio_get_output_device_id os index = 0 := by
      intro index hi
      by_cases hneg : index < 0
      · simp [phonolite_audio_get_output_device_id, hneg]
      · have hge : phonolite_audio_get_output_device_count os ≤ index := by
          rcases hi with hi | hi
          · exact absurd hi hneg
          · exact hi
        rw [hid index (not_lt.mp hneg)]
        have : (devices.filter (isLiveOutput os)).get? index.toNat = none := by
          rw [List.get?_eq_none]
          rw [hcount] at hge
          omega
        rw [this]
        rfl
    refine ⟨hcount, ?_, hout, ?_⟩
    · intro index hi hlt
      rw [hid index hi]
      rw [hcount] at hlt
      have hlt' : index.toNat < (devices.filter (isLiveOutput os)).length := by omega
      rw [List.get?_eq_get hlt']
      simp only [Option.map_some', Option.getD_some, Option.some.injEq]
      exact (hu32 _ (List.mem_of_mem_filter (List.get_mem _ _ _))).symm
    · intro hnil
      have hc0 : phonolite_audio_get_output_device_count os = 0 := by
        rw [hcount, hnil]; rfl
      refine ⟨hc0, fun index => hout index ?_⟩
      rw [hc0]
      omega
  · intro h
    constructor
    · simp only [phonolite_audio_get_output_device_count, h]
    · intro index
      simp only [phonolite_audio_get_output_device_id, h]
      split_ifs <;> rfl

/-- Witness for C8: of the devices `41, 42, 43, 44` two are live output
devices; index `1` gives `44`, index `2` gives `0`. -/
theorem output_device_enumeration_witness :
    phonolite_get_all_devices exampleCoreAudio = some [41, 42, 43, 44] ∧
    phonolite_audio_get_output_device_count exampleCoreAudio = 2 ∧
    [41, 42, 43, 44].filter (isLiveOutput exampleCoreAudio) = [41, 44] ∧
    phonolite_audio_get_output_device_id exampleCoreAudio 1 = 44 ∧
    phonolite_audio_get_output_device_id exampleCoreAudio 2 = 0 :=
  have h := (output_device_enumeration exampleCoreAudio).1 [41, 42, 43, 44] (by decide)
  ⟨by decide, h.1.trans (by decide), by decide, by decide,
   h.2.2.1 2 (Or.inr (by rw [h.1]; decide))⟩

end Phonolite
